import Mathlib

/-!
Verification of the kasper per-partition stream processing core.

The Go source is embedded shallowly:

* `partitionProcessor` state becomes `PartitionProcessor`: the per-topic
  in-flight queues, the per-topic offset-manager call traces (the list of
  offsets passed to `MarkOffset`, oldest first), and the single-shot
  commit flag.
* Pointer identity of Go objects (`*IncomingMessage`, `*sarama.ProducerMessage`)
  is modelled by monotonic in-process ids, following the design note of the
  specification on languages without pointer identity.
* Side effects on the offset manager are modelled by appending to the call
  trace; fatal exits (`log.Fatal`) become `Option`/`ESOutcome` failures.
* The Elasticsearch key-value store is embedded with the external client
  modelled as an oracle of responses; the store object state is its cache
  of existing indexes, and every client call is recorded in a trace.
-/

namespace Kasper

/-- One deserialized input record. The user-domain key, value and
timestamp fields are opaque payload with no effect on control flow and are
omitted; `incomingId` models the pointer identity of the Go
`*IncomingMessage`. -/
structure IncomingMessage where
  topic : String
  partition : Int
  offset : Int
  incomingId : Nat
deriving DecidableEq, Repr

/-- One record staged for production. `producerId` models the pointer
identity of the Go `*sarama.ProducerMessage`; `metadata` is the
originating incoming message, set by the Sender. -/
structure ProducerMessage where
  topic : String
  producerId : Nat
  metadata : IncomingMessage
deriving DecidableEq, Repr

/-- Modelled from the spec: file `in_flight_message_group.go` is not under
`src/`. One produced record plus its ack flag. -/
structure InFlightMessage where
  msg : ProducerMessage
  ack : Bool
deriving DecidableEq, Repr

/-- Modelled from the spec: file `in_flight_message_group.go` is not under
`src/`. All produced records derived from one input record, plus the
commit flag. -/
structure InFlightMessageGroup where
  incomingMessage : IncomingMessage
  inFlightMessages : List InFlightMessage
  committed : Bool
deriving DecidableEq, Repr

/-- Modelled from the spec: a group is complete when every contained
in-flight message has `ack = true`; a group with zero produced records is
complete immediately (`allAcksAreTrue` on an empty group returns true by
definition). -/
def InFlightMessageGroup.allAcksAreTrue (g : InFlightMessageGroup) : Bool :=
  g.inFlightMessages.all (fun m => m.ack)

/-- Modelled from the spec: the commit discipline is a per-processor
configuration switch of which exactly one alternative is active. -/
inductive CommitMode where
  | manual
  | automatic
deriving DecidableEq, Repr

/-- Modelled from the spec: the configuration consulted by the partition
processor, reduced to the fields the embedded operations read. The set of
topics with serdes stands for the domain of `TopicSerdes`. -/
structure Config where
  maxInFlightMessageGroups : Int
  commitMode : CommitMode
  topicSerdes : List String
deriving DecidableEq, Repr

/-- Modelled from the spec: true when the processor is configured for
manual commits. -/
def Config.markOffsetsManually (c : Config) : Bool :=
  c.commitMode = CommitMode.manual

/-- Modelled from the spec: true when the processor is configured for
automatic commits. -/
def Config.markOffsetsAutomatically (c : Config) : Bool :=
  c.commitMode = CommitMode.automatic

/-- One record delivered by a partition consumer (the fields of
`sarama.ConsumerMessage` the processor reads; key, value and timestamp
are opaque payload and omitted). -/
structure ConsumerMessage where
  topic : String
  partition : Int
  offset : Int
deriving DecidableEq, Repr

/-- The mutable state of one `partitionProcessor`. The Go maps with nil
default become functions with `[]` default; `offsetManagers` maps a topic
to the trace of offsets passed to `MarkOffset` for that topic, oldest
first. -/
structure PartitionProcessor where
  inputTopics : List String
  inFlightMessageGroups : String → List InFlightMessageGroup
  offsetManagers : String → List Int
  commitNextInFlightMessageGroup : Bool

/-- Point update of a topic-indexed map. -/
def updateMap {α : Type} (m : String → α) (t : String) (v : α) : String → α :=
  fun u => if u = t then v else m u

/-- The loop body of `pruneInFlightMessageGroupsForTopic`: while the queue
has more than one element and both the head group and the following group
are complete, drop the head group. -/
def pruneQueue : List InFlightMessageGroup → List InFlightMessageGroup
  | [] => []
  | [g] => [g]
  | g0 :: g1 :: rest =>
    if g0.allAcksAreTrue && g1.allAcksAreTrue then pruneQueue (g1 :: rest)
    else g0 :: g1 :: rest

/-- `pruneInFlightMessageGroupsForTopic` from the source: prune one
queue in place. -/
def pruneInFlightMessageGroupsForTopic (s : PartitionProcessor) (topic : String) :
    PartitionProcessor :=
  { s with inFlightMessageGroups :=
      updateMap s.inFlightMessageGroups topic (pruneQueue (s.inFlightMessageGroups topic)) }

/-- `pruneInFlightMessageGroups` from the source: prune every input
topic, in order. -/
def pruneInFlightMessageGroups (s : PartitionProcessor) : PartitionProcessor :=
  s.inputTopics.foldl pruneInFlightMessageGroupsForTopic s

/-- `onProcessCompleted` from the source. -/
def onProcessCompleted (s : PartitionProcessor) : PartitionProcessor :=
  pruneInFlightMessageGroups s

/-- `isReadyForMessage` from the source: the length of the in-flight
queue of the topic of the message, compared with the configured bound. -/
def isReadyForMessage (cfg : Config) (s : PartitionProcessor) (msg : ConsumerMessage) : Bool :=
  ((s.inFlightMessageGroups msg.topic).length : Int) ≤ cfg.maxInFlightMessageGroups

/-- The loop of `markOffsetsForTopicIfPossible`: pop complete head
groups, remembering the offset of the last popped group, and in manual
mode call `MarkOffset` at `offset + 1` for each popped group whose
`committed` flag is set. Returns the remaining queue, the final value of
the `offset` local, and the extended MarkOffset trace. -/
def markOffsetsLoop (cfg : Config) :
    List InFlightMessageGroup → Int → List Int → List InFlightMessageGroup × Int × List Int
  | [], offset, marks => ([], offset, marks)
  | g :: rest, offset, marks =>
    if !g.allAcksAreTrue then (g :: rest, offset, marks)
    else
      let offset2 := g.incomingMessage.offset
      let marks2 :=
        if g.committed && cfg.markOffsetsManually then marks ++ [offset2 + 1] else marks
      markOffsetsLoop cfg rest offset2 marks2

/-- `markOffsetsForTopicIfPossible` from the source: run the loop with
`offset = -1`, then, if `offset` changed and the processor is in
automatic mode, call `MarkOffset` at `offset + 1` once. -/
def markOffsetsForTopicIfPossible (cfg : Config) (s : PartitionProcessor) (topic : String) :
    PartitionProcessor :=
  let r := markOffsetsLoop cfg (s.inFlightMessageGroups topic) (-1) (s.offsetManagers topic)
  let marks :=
    if r.2.1 ≠ -1 ∧ cfg.markOffsetsAutomatically then r.2.2 ++ [r.2.1 + 1] else r.2.2
  { s with
      inFlightMessageGroups := updateMap s.inFlightMessageGroups topic r.1,
      offsetManagers := updateMap s.offsetManagers topic marks }

/-- `markOffsetsIfPossible` from the source: advance offsets for every
input topic, in order. -/
def markOffsetsIfPossible (cfg : Config) (s : PartitionProcessor) : PartitionProcessor :=
  s.inputTopics.foldl (markOffsetsForTopicIfPossible cfg) s

/-- The `sarama.OffsetNewest` sentinel: a consumer opened at this offset
starts at the newest offset of the log. -/
def OffsetNewest : Int := -1

/-- The starting-offset computation of `newPartitionProcessor` for one
input topic: read the persisted next offset and the newest offset of the
log, and clamp to the `OffsetNewest` sentinel when the former exceeds the
latter. -/
def startingOffset (nextOffset newestOffset : Int) : Int :=
  if nextOffset > newestOffset then OffsetNewest else nextOffset

/-- The starting offsets chosen by `newPartitionProcessor` for each input
topic, given the persisted next offsets and the newest log offsets. -/
def newPartitionProcessorStartOffsets (persisted newest : String → Int)
    (topics : List String) : List (String × Int) :=
  topics.map (fun t => (t, startingOffset (persisted t) (newest t)))

/-- The incoming-message offset of the last group of `p`, or the default
`d` when `p` is empty: the final value of the `offset` local of the loop
of `markOffsetsForTopicIfPossible` after popping the groups `p`. -/
def lastOffsetOr : List InFlightMessageGroup → Int → Int
  | [], d => d
  | g :: p, _ => lastOffsetOr p g.incomingMessage.offset

/-- The MarkOffset calls made inside the loop of
`markOffsetsForTopicIfPossible` while popping the groups `p`: in manual
mode one call at one past the offset of each committed group, in order;
none otherwise. -/
def manualMarks (cfg : Config) (p : List InFlightMessageGroup) : List Int :=
  p.filterMap (fun g =>
    if g.committed && cfg.markOffsetsManually then some (g.incomingMessage.offset + 1)
    else none)

/-- All MarkOffset calls of one run of `markOffsetsForTopicIfPossible` on
the queue `q`: the manual calls over the complete head run, then the one
automatic call when the `offset` local moved off the `-1` sentinel. -/
def topicMarks (cfg : Config) (q : List InFlightMessageGroup) : List Int :=
  manualMarks cfg (q.takeWhile InFlightMessageGroup.allAcksAreTrue) ++
    (if lastOffsetOr (q.takeWhile InFlightMessageGroup.allAcksAreTrue) (-1) ≠ -1 ∧
        cfg.markOffsetsAutomatically
     then [lastOffsetOr (q.takeWhile InFlightMessageGroup.allAcksAreTrue) (-1) + 1]
     else [])

/-- The claim-side description of the MarkOffset calls for one topic: in
manual mode exactly one call per complete head group whose committed flag
is true, at one past its offset, in order; in automatic mode exactly one
call at one past the offset of the last complete head group whenever at
least one head group is complete. -/
def claimedMarks (cfg : Config) (q : List InFlightMessageGroup) : List Int :=
  match cfg.commitMode with
  | CommitMode.manual =>
      ((q.takeWhile InFlightMessageGroup.allAcksAreTrue).filter
        (fun g => g.committed)).map (fun g => g.incomingMessage.offset + 1)
  | CommitMode.automatic =>
      match (q.takeWhile InFlightMessageGroup.allAcksAreTrue).getLast? with
      | none => []
      | some g => [g.incomingMessage.offset + 1]

/-- A concrete incoming message for the witness theorems. -/
def wIncoming (off : Int) (id : Nat) : IncomingMessage :=
  { topic := "t", partition := 0, offset := off, incomingId := id }

/-- A concrete in-flight message for the witness theorems. -/
def wMessage (pid : Nat) (off : Int) (id : Nat) (a : Bool) : InFlightMessage :=
  { msg := { topic := "u", producerId := pid, metadata := wIncoming off id }, ack := a }

/-- A concrete in-flight group for the witness theorems. -/
def wGroup (off : Int) (id : Nat) (acks : List Bool) (com : Bool) : InFlightMessageGroup :=
  { incomingMessage := wIncoming off id,
    inFlightMessages := acks.map (fun a => wMessage 0 off id a),
    committed := com }

/-- A concrete in-flight group with given producer ids, all unacked, for
the witness theorems. -/
def wGroupIds (off : Int) (id : Nat) (pids : List Nat) : InFlightMessageGroup :=
  { incomingMessage := wIncoming off id,
    inFlightMessages := pids.map (fun pid => wMessage pid off id false),
    committed := false }

/-- A concrete processor state over one input topic for the witness
theorems. -/
def wState (q : List InFlightMessageGroup) : PartitionProcessor :=
  { inputTopics := ["t"],
    inFlightMessageGroups := fun u => if u = "t" then q else [],
    offsetManagers := fun _ => [],
    commitNextInFlightMessageGroup := false }

/-- A concrete queue: complete uncommitted, complete committed,
incomplete. -/
def wQueue1 : List InFlightMessageGroup :=
  [wGroup 10 1 [true] false, wGroup 11 2 [true] true, wGroup 12 3 [false] false]

/-- A concrete manual-mode configuration for the witness theorems. -/
def wCfgManual : Config :=
  { maxInFlightMessageGroups := 4, commitMode := CommitMode.manual, topicSerdes := ["t"] }

/-- A concrete automatic-mode configuration for the witness theorems. -/
def wCfgAuto : Config :=
  { maxInFlightMessageGroups := 4, commitMode := CommitMode.automatic, topicSerdes := ["t"] }

/-- A concrete consumer message for the witness theorems. -/
def wConsumerMessage : ConsumerMessage := { topic := "t", partition := 0, offset := 10 }


/-- A message the user processor submits through `sender.Send`: the
output topic and the id standing for the pointer identity of the
`*sarama.ProducerMessage` the user allocated. The Sender fills in the
metadata back-reference. -/
structure StagedMessage where
  topic : String
  producerId : Nat
deriving DecidableEq, Repr

/-- Modelled from the spec: the user `MessageProcessor` is external
business logic. It is summarised by the ordered list of messages it
submits through the Sender and by whether it calls `coordinator.Commit`
(zero or one times), both as functions of the incoming message. -/
structure MessageProcessorModel where
  staged : IncomingMessage → List StagedMessage
  callsCommit : IncomingMessage → Bool

/-- `process` from the source. The serde lookup is fatal when the topic
has no serde (`none`). The Sender and Coordinator are modelled from the
spec (their files are not under `src/`): the Sender stamps each submitted
message with the originating incoming message as metadata and freezes the
submissions into one group with `ack = false` everywhere and `committed`
taken from the commit flag after the user processor returned; the
Coordinator raises the flag when the user calls commit. `freshId` models
the allocation of the incoming message. -/
def process (cfg : Config) (mp : MessageProcessorModel) (freshId : Nat)
    (msg : ConsumerMessage) (s : PartitionProcessor) :
    Option (PartitionProcessor × List ProducerMessage) :=
  if cfg.topicSerdes.contains msg.topic then
    let incoming : IncomingMessage :=
      { topic := msg.topic, partition := msg.partition, offset := msg.offset,
        incomingId := freshId }
    let s1 := { s with commitNextInFlightMessageGroup := false }
    let sent : List ProducerMessage :=
      (mp.staged incoming).map
        (fun pm => { topic := pm.topic, producerId := pm.producerId, metadata := incoming })
    let s2 := { s1 with commitNextInFlightMessageGroup :=
        s1.commitNextInFlightMessageGroup || mp.callsCommit incoming }
    let group : InFlightMessageGroup :=
      { incomingMessage := incoming,
        inFlightMessages := sent.map (fun m => { msg := m, ack := false }),
        committed := s2.commitNextInFlightMessageGroup }
    let queues := updateMap s2.inFlightMessageGroups msg.topic
      (s2.inFlightMessageGroups msg.topic ++ [group])
    some ({ s2 with inFlightMessageGroups := queues }, sent)
  else
    none

/-- The inner loop of `onProducerAck`: find the first in-flight message
whose producer message is the sent message (pointer identity modelled by
`producerId`) and set its ack flag; `none` when no message matches
(fatal in the source). -/
def ackInGroup (sent : ProducerMessage) :
    List InFlightMessage → Option (List InFlightMessage)
  | [] => none
  | m :: rest =>
    if m.msg.producerId = sent.producerId then some ({ m with ack := true } :: rest)
    else (ackInGroup sent rest).map (fun ms => m :: ms)

/-- The outer loop of `onProducerAck`: find the first group whose
incoming message is the metadata of the sent message (pointer identity
modelled by `incomingId`), ack inside it, and stop; `none` when no group
matches or the group lacks the message (both fatal in the source). -/
def ackInQueue (sent : ProducerMessage) :
    List InFlightMessageGroup → Option (List InFlightMessageGroup)
  | [] => none
  | g :: rest =>
    if g.incomingMessage.incomingId = sent.metadata.incomingId then
      (ackInGroup sent g.inFlightMessages).map
        (fun ms => { g with inFlightMessages := ms } :: rest)
    else
      (ackInQueue sent rest).map (fun q => g :: q)

/-- `onProducerAck` from the source: the queue searched is the one of the
topic of the originating incoming message (the metadata of the sent
message). -/
def onProducerAck (sent : ProducerMessage) (s : PartitionProcessor) :
    Option PartitionProcessor :=
  (ackInQueue sent (s.inFlightMessageGroups sent.metadata.topic)).map
    (fun q =>
      { s with inFlightMessageGroups :=
          updateMap s.inFlightMessageGroups sent.metadata.topic q })

/-- A concrete user-processor summary for the witness theorems: submits
one message and requests a commit. -/
def wMP : MessageProcessorModel :=
  { staged := fun _ => [{ topic := "u", producerId := 7 }],
    callsCommit := fun _ => true }

/-- A concrete sent producer message for the ack witness: the second
message of the group at offset 10. -/
def wAckSent : ProducerMessage :=
  { topic := "u", producerId := 4, metadata := wIncoming 10 1 }

/-- A concrete state for the ack witness: one group with two unacked
messages, producer ids 3 and 4. -/
def wAckState : PartitionProcessor := wState [wGroupIds 10 1 [3, 4]]

/-- The state after acking producer id 4 in `wAckState`. -/
def wAckResult : PartitionProcessor :=
  { inputTopics := ["t"],
    inFlightMessageGroups :=
      updateMap wAckState.inFlightMessageGroups "t"
        [{ incomingMessage := wIncoming 10 1,
           inFlightMessages := [wMessage 3 10 1 false, wMessage 4 10 1 true],
           committed := false }],
    offsetManagers := fun _ => [],
    commitNextInFlightMessageGroup := false }

end Kasper

namespace KasperKV

/-- The raw source bytes of a stored document, opaque to the store. -/
abbrev SourceData := String

/-- The deserialized user struct, opaque to the store; the Go code only
passes it through. The witness nil value is modelled by `none` of
`Option StoredValue`. -/
abbrev StoredValue := String

/-- One call the store makes against Elasticsearch (the trace of external
effects). -/
inductive ESOp where
  | indexExists (indexName : String)
  | createIndex (indexName : String)
  | putMapping (indexName indexType : String)
  | clientGet (indexName indexType valueID : String)
  | clientIndex (indexName indexType valueID : String)
  | clientDelete (indexName indexType valueID : String)
deriving DecidableEq, Repr

/-- Termination of the computation: Go `panic` aborts, otherwise a value
is returned. -/
inductive ESOutcome (α : Type) where
  | panicked (msg : String)
  | returned (a : α)
deriving DecidableEq, Repr

/-- The response of `client.Get`: whether the document was found and its
raw source (a nil source pointer is `none`; dereferencing it panics). -/
structure GetRawValue where
  found : Bool
  source : Option SourceData
deriving DecidableEq, Repr

/-- The response of `client.Delete`: `none` models a nil response
pointer. -/
structure DeleteResponse where
  found : Bool
deriving DecidableEq, Repr

/-- The external Elasticsearch client, modelled as an oracle of
responses keyed by the request arguments. Errors are `Except.error` with
the Go error string; `json.Unmarshal` into the witness struct is the
`unmarshal` oracle. -/
structure ESEnv where
  indexExistsResp : String → Except String Bool
  createIndexResp : String → Except String Unit
  putMappingResp : String → String → Except String (Option Bool)
  getResp : String → String → String → GetRawValue × Option String
  indexResp : String → String → String → StoredValue → Option String
  deleteResp : String → String → String → Option DeleteResponse × Option String
  unmarshal : SourceData → Except String StoredValue

/-- The store object state mutated by `checkOrCreateIndex`: the cache of
index/type pairs already checked. -/
abbrev Indexes := List (String × String)

/-- Go `strings.Split(key, "/")` for the one-character separator: split
the key at every slash, empty parts included, the empty key yielding one
empty part. -/
def splitKey (key : String) : List String :=
  (key.data.splitOn '/').map (fun cs => String.mk cs)

/-- Go `fmt.Sprintf` applied with the string verb to an error value; a
nil error renders as a non-matching placeholder. -/
def errString : Option String → String
  | none => "%!s(<nil>)"
  | some e => e

/-- The error message returned for a key that does not split into exactly
three parts. -/
def invalidKeyError (key : String) : String :=
  "invalid key: \x27" ++ key ++ "\x27"

/-- `putMapping` from the source: panic on a client error, a nil
response, or a response that is not acknowledged. -/
def putMapping (env : ESEnv) (indexName indexType : String) : ESOutcome Unit :=
  match env.putMappingResp indexName indexType with
  | Except.error e =>
      ESOutcome.panicked
        ("Failed to put mapping for index: " ++ indexName ++ "/" ++ indexType ++ ": " ++ e)
  | Except.ok none => ESOutcome.panicked "Expected put mapping response; got nil"
  | Except.ok (some ack) =>
      if ack then ESOutcome.returned () else ESOutcome.panicked "Expected put mapping ack"

/-- `checkOrCreateIndex` from the source: skip when the pair is cached,
otherwise query existence, create the index and put the mapping when it
does not exist, and cache the pair. Returns the new cache and the trace
of client calls. -/
def checkOrCreateIndex (env : ESEnv) (indexes : Indexes) (indexName indexType : String) :
    ESOutcome Indexes × List ESOp :=
  if (indexName, indexType) ∈ indexes then (ESOutcome.returned indexes, [])
  else
    match env.indexExistsResp indexName with
    | Except.error e =>
        (ESOutcome.panicked ("Failed to check if index exists: " ++ e),
         [ESOp.indexExists indexName])
    | Except.ok true =>
        (ESOutcome.returned (indexes ++ [(indexName, indexType)]),
         [ESOp.indexExists indexName])
    | Except.ok false =>
        match env.createIndexResp indexName with
        | Except.error e =>
            (ESOutcome.panicked ("Failed to create index: " ++ e),
             [ESOp.indexExists indexName, ESOp.createIndex indexName])
        | Except.ok () =>
            match putMapping env indexName indexType with
            | ESOutcome.panicked m =>
                (ESOutcome.panicked m,
                 [ESOp.indexExists indexName, ESOp.createIndex indexName,
                  ESOp.putMapping indexName indexType])
            | ESOutcome.returned () =>
                (ESOutcome.returned (indexes ++ [(indexName, indexType)]),
                 [ESOp.indexExists indexName, ESOp.createIndex indexName,
                  ESOp.putMapping indexName indexType])

/-- `Get` from the source: split the key on the slash, reject keys that
do not yield exactly three parts, consult the index cache, then interpret
the client response: a 404 error or a not-found document yield the
witness nil with no error; other errors are returned; otherwise the
source is unmarshalled. Returns the result, the new index cache, and the
trace of client calls. -/
def esGet (env : ESEnv) (indexes : Indexes) (key : String) :
    ESOutcome (Option StoredValue × Option String) × Indexes × List ESOp :=
  match splitKey key with
  | [indexName, indexType, valueID] =>
    (match checkOrCreateIndex env indexes indexName indexType with
     | (ESOutcome.panicked m, ops) => (ESOutcome.panicked m, indexes, ops)
     | (ESOutcome.returned indexes2, ops) =>
       let r := env.getResp indexName indexType valueID
       let ops2 := ops ++ [ESOp.clientGet indexName indexType valueID]
       if errString r.2 = "elastic: Error 404 (Not Found)" then
         (ESOutcome.returned (none, none), indexes2, ops2)
       else
         match r.2 with
         | some e => (ESOutcome.returned (none, some e), indexes2, ops2)
         | none =>
           if !r.1.found then (ESOutcome.returned (none, none), indexes2, ops2)
           else
             match r.1.source with
             | none => (ESOutcome.panicked "nil source dereference", indexes2, ops2)
             | some src =>
               match env.unmarshal src with
               | Except.error e => (ESOutcome.returned (none, some e), indexes2, ops2)
               | Except.ok v => (ESOutcome.returned (some v, none), indexes2, ops2))
  | _ => (ESOutcome.returned (none, some (invalidKeyError key)), indexes, [])

/-- `Put` from the source: the witness type assertion is subsumed by the
`StoredValue` type; an invalid key is rejected before any client call;
otherwise the document is indexed and the client error, if any, is
returned. -/
def esPut (env : ESEnv) (indexes : Indexes) (key : String) (value : StoredValue) :
    ESOutcome (Option String) × Indexes × List ESOp :=
  match splitKey key with
  | [indexName, indexType, valueID] =>
    (match checkOrCreateIndex env indexes indexName indexType with
     | (ESOutcome.panicked m, ops) => (ESOutcome.panicked m, indexes, ops)
     | (ESOutcome.returned indexes2, ops) =>
       (ESOutcome.returned (env.indexResp indexName indexType valueID value), indexes2,
        ops ++ [ESOp.clientIndex indexName indexType valueID]))
  | _ => (ESOutcome.returned (some (invalidKeyError key)), indexes, [])

/-- `Delete` from the source: an invalid key is rejected before any
client call; otherwise the document is deleted, a response reporting the
document not found suppresses the error, and the client error, if any,
is returned. -/
def esDelete (env : ESEnv) (indexes : Indexes) (key : String) :
    ESOutcome (Option String) × Indexes × List ESOp :=
  match splitKey key with
  | [indexName, indexType, valueID] =>
    (match checkOrCreateIndex env indexes indexName indexType with
     | (ESOutcome.panicked m, ops) => (ESOutcome.panicked m, indexes, ops)
     | (ESOutcome.returned indexes2, ops) =>
       let r := env.deleteResp indexName indexType valueID
       let result :=
         match r.1 with
         | some resp => if !resp.found then none else r.2
         | none => r.2
       (ESOutcome.returned result, indexes2,
        ops ++ [ESOp.clientDelete indexName indexType valueID]))
  | _ => (ESOutcome.returned (some (invalidKeyError key)), indexes, [])

/-- A concrete client oracle for the witness theorems: every index
exists, every document is absent, and no call errors. -/
def wEnv : ESEnv :=
  { indexExistsResp := fun _ => Except.ok true,
    createIndexResp := fun _ => Except.ok (),
    putMappingResp := fun _ _ => Except.ok (some true),
    getResp := fun _ _ _ => ({ found := false, source := none }, none),
    indexResp := fun _ _ _ _ => none,
    deleteResp := fun _ _ _ => (some { found := true }, none),
    unmarshal := fun src => Except.ok src }

end KasperKV

namespace Kasper

theorem updateMap_same {α : Type} (m : String → α) (t : String) (v : α) :
    updateMap m t v t = v := by
  simp [updateMap]

theorem updateMap_other {α : Type} (m : String → α) (t : String) (v : α) (u : String)
    (h : u ≠ t) : updateMap m t v u = m u := by
  simp [updateMap, h]

theorem pruneQueue_eq_drop : ∀ q : List InFlightMessageGroup,
    pruneQueue q = q.drop ((q.takeWhile InFlightMessageGroup.allAcksAreTrue).length - 1)
  | [] => by simp [pruneQueue]
  | [g] => by
    by_cases hg : g.allAcksAreTrue = true
    · simp [pruneQueue, hg]
    · simp [pruneQueue, hg]
  | g0 :: g1 :: rest => by
    by_cases h0 : g0.allAcksAreTrue = true
    · by_cases h1 : g1.allAcksAreTrue = true
      · have ih := pruneQueue_eq_drop (g1 :: rest)
        have hstep : pruneQueue (g0 :: g1 :: rest) = pruneQueue (g1 :: rest) := by
          simp [pruneQueue, h0, h1]
        rw [hstep, ih]
        simp [List.takeWhile_cons, h0, h1]
      · simp [pruneQueue, h0, h1, List.takeWhile_cons]
    · simp [pruneQueue, h0, List.takeWhile_cons]

theorem pruneQueue_idem : ∀ q : List InFlightMessageGroup,
    pruneQueue (pruneQueue q) = pruneQueue q
  | [] => rfl
  | [_] => rfl
  | g0 :: g1 :: rest => by
    by_cases h : (g0.allAcksAreTrue && g1.allAcksAreTrue) = true
    · have hstep : pruneQueue (g0 :: g1 :: rest) = pruneQueue (g1 :: rest) := by
        simp [pruneQueue, h]
      rw [hstep]
      exact pruneQueue_idem (g1 :: rest)
    · have hstep : pruneQueue (g0 :: g1 :: rest) = g0 :: g1 :: rest := by
        simp [pruneQueue]
        intro hc
        simp [hc] at h
        simp [pruneQueue, h]
      rw [hstep]
      simp [pruneQueue]
      intro hc
      simp [hc] at h
      simp [pruneQueue, h]

theorem pruneQueue_ne_nil : ∀ q : List InFlightMessageGroup, q ≠ [] → pruneQueue q ≠ []
  | [], h => absurd rfl h
  | [g], _ => by simp [pruneQueue]
  | g0 :: g1 :: rest, _ => by
    by_cases h : (g0.allAcksAreTrue && g1.allAcksAreTrue) = true
    · have hstep : pruneQueue (g0 :: g1 :: rest) = pruneQueue (g1 :: rest) := by
        simp [pruneQueue, h]
      rw [hstep]
      exact pruneQueue_ne_nil (g1 :: rest) (by simp)
    · simp only [pruneQueue]
      rw [if_neg (by simp [h])]
      simp

theorem prune_step_inputTopics (s : PartitionProcessor) (u : String) :
    (pruneInFlightMessageGroupsForTopic s u).inputTopics = s.inputTopics := rfl

theorem prune_step_offsetManagers (s : PartitionProcessor) (u : String) :
    (pruneInFlightMessageGroupsForTopic s u).offsetManagers = s.offsetManagers := rfl

theorem prune_step_queues_same (s : PartitionProcessor) (u : String) :
    (pruneInFlightMessageGroupsForTopic s u).inFlightMessageGroups u =
      pruneQueue (s.inFlightMessageGroups u) :=
  updateMap_same _ _ _

theorem prune_step_queues_other (s : PartitionProcessor) (u t : String) (h : t ≠ u) :
    (pruneInFlightMessageGroupsForTopic s u).inFlightMessageGroups t =
      s.inFlightMessageGroups t :=
  updateMap_other _ _ _ _ h

theorem foldl_prune_inputTopics : ∀ (ts : List String) (s : PartitionProcessor),
    (ts.foldl pruneInFlightMessageGroupsForTopic s).inputTopics = s.inputTopics
  | [], _ => rfl
  | u :: rest, s => by
    rw [List.foldl_cons, foldl_prune_inputTopics rest, prune_step_inputTopics]

theorem foldl_prune_offsetManagers : ∀ (ts : List String) (s : PartitionProcessor),
    (ts.foldl pruneInFlightMessageGroupsForTopic s).offsetManagers = s.offsetManagers
  | [], _ => rfl
  | u :: rest, s => by
    rw [List.foldl_cons, foldl_prune_offsetManagers rest, prune_step_offsetManagers]

theorem foldl_prune_queues_not_mem : ∀ (ts : List String) (s : PartitionProcessor)
    (t : String), t ∉ ts →
    (ts.foldl pruneInFlightMessageGroupsForTopic s).inFlightMessageGroups t =
      s.inFlightMessageGroups t
  | [], _, _, _ => rfl
  | u :: rest, s, t, h => by
    have hu : t ≠ u := fun he => h (he ▸ List.mem_cons_self u rest)
    have hr : t ∉ rest := fun he => h (List.mem_cons_of_mem u he)
    rw [List.foldl_cons, foldl_prune_queues_not_mem rest _ t hr,
      prune_step_queues_other s u t hu]

theorem foldl_prune_queues_mem : ∀ (ts : List String) (s : PartitionProcessor)
    (t : String), t ∈ ts →
    (ts.foldl pruneInFlightMessageGroupsForTopic s).inFlightMessageGroups t =
      pruneQueue (s.inFlightMessageGroups t)
  | [], _, _, h => absurd h (List.not_mem_nil _)
  | u :: rest, s, t, h => by
    rw [List.foldl_cons]
    by_cases hu : t = u
    · subst hu
      by_cases hr : t ∈ rest
      · rw [foldl_prune_queues_mem rest _ t hr, prune_step_queues_same,
          pruneQueue_idem]
      · rw [foldl_prune_queues_not_mem rest _ t hr, prune_step_queues_same]
    · have hr : t ∈ rest := by
        rcases List.mem_cons.mp h with he | hr
        · exact absurd he hu
        · exact hr
      rw [foldl_prune_queues_mem rest _ t hr, prune_step_queues_other s u t hu]

/-- C8: running the interior prune twice in succession, with no acks in
between, yields the same in-flight queues as running it once: for every
processor state and every topic, the queue after two runs of
`onProcessCompleted` equals the queue after one run. -/
theorem onProcessCompleted_idempotent (s : PartitionProcessor) (t : String) :
    (onProcessCompleted (onProcessCompleted s)).inFlightMessageGroups t =
      (onProcessCompleted s).inFlightMessageGroups t := by
  unfold onProcessCompleted pruneInFlightMessageGroups
  rw [foldl_prune_inputTopics]
  by_cases h : t ∈ s.inputTopics
  · rw [foldl_prune_queues_mem _ _ _ h, foldl_prune_queues_mem _ _ _ h,
      pruneQueue_idem]
  · rw [foldl_prune_queues_not_mem _ _ _ h, foldl_prune_queues_not_mem _ _ _ h]

/-- C5: the interior prune `onProcessCompleted` drops, on each input
topic queue, exactly the head groups that are followed by another
complete group inside the complete head run (it drops
`length of complete head run - 1` groups, and nothing else), it never
empties a non-empty queue, it never calls MarkOffset, and it leaves
queues of other topics alone. -/
theorem onProcessCompleted_drops_only_covered_head_groups (s : PartitionProcessor)
    (t : String) (ht : t ∈ s.inputTopics) :
    (onProcessCompleted s).inFlightMessageGroups t =
        (s.inFlightMessageGroups t).drop
          (((s.inFlightMessageGroups t).takeWhile
              InFlightMessageGroup.allAcksAreTrue).length - 1) ∧
      (s.inFlightMessageGroups t ≠ [] →
        (onProcessCompleted s).inFlightMessageGroups t ≠ []) ∧
      (∀ u, (onProcessCompleted s).offsetManagers u = s.offsetManagers u) ∧
      (∀ u, u ∉ s.inputTopics →
        (onProcessCompleted s).inFlightMessageGroups u = s.inFlightMessageGroups u) := by
  unfold onProcessCompleted pruneInFlightMessageGroups
  refine ⟨?_, ?_, ?_, ?_⟩
  · rw [foldl_prune_queues_mem _ _ _ ht, pruneQueue_eq_drop]
  · intro hne
    rw [foldl_prune_queues_mem _ _ _ ht]
    exact pruneQueue_ne_nil _ hne
  · intro u
    rw [foldl_prune_offsetManagers]
  · intro u hu
    rw [foldl_prune_queues_not_mem _ _ _ hu]

/-- Witness for C5 at a concrete state: the queue holds two complete
groups followed by an incomplete one, the prune drops exactly the first
group, and the non-empty queue stays non-empty. -/
theorem onProcessCompleted_drops_witness :
    "t" ∈ (wState wQueue1).inputTopics ∧
      (onProcessCompleted (wState wQueue1)).inFlightMessageGroups "t" =
        ((wState wQueue1).inFlightMessageGroups "t").drop
          ((((wState wQueue1).inFlightMessageGroups "t").takeWhile
              InFlightMessageGroup.allAcksAreTrue).length - 1) :=
  ⟨by decide,
   (onProcessCompleted_drops_only_covered_head_groups (wState wQueue1) "t" (by decide)).1⟩

theorem lastOffsetOr_nil (d : Int) : lastOffsetOr [] d = d := rfl

theorem lastOffsetOr_cons (g : InFlightMessageGroup) (p : List InFlightMessageGroup)
    (d : Int) : lastOffsetOr (g :: p) d = lastOffsetOr p g.incomingMessage.offset := rfl

theorem lastOffsetOr_eq_getLast : ∀ (p : List InFlightMessageGroup) (d : Int),
    lastOffsetOr p d =
      match p.getLast? with
      | none => d
      | some g => g.incomingMessage.offset
  | [], _ => rfl
  | [_], _ => rfl
  | g :: x :: xs, d => by
    rw [lastOffsetOr_cons, lastOffsetOr_eq_getLast (x :: xs) g.incomingMessage.offset,
      List.getLast?_cons_cons]
    rcases hl : (x :: xs).getLast? with _ | y
    · simp at hl
    · rfl

theorem manualMarks_cons (cfg : Config) (g : InFlightMessageGroup)
    (p : List InFlightMessageGroup) :
    manualMarks cfg (g :: p) =
      (if g.committed && cfg.markOffsetsManually then [g.incomingMessage.offset + 1]
       else []) ++ manualMarks cfg p := by
  by_cases h1 : g.committed = true <;> by_cases h2 : cfg.markOffsetsManually = true <;>
    simp [manualMarks, List.filterMap_cons, h1, h2]

theorem markOffsetsLoop_spec (cfg : Config) :
    ∀ (q : List InFlightMessageGroup) (offset : Int) (marks : List Int),
    markOffsetsLoop cfg q offset marks =
      (q.dropWhile InFlightMessageGroup.allAcksAreTrue,
       lastOffsetOr (q.takeWhile InFlightMessageGroup.allAcksAreTrue) offset,
       marks ++ manualMarks cfg (q.takeWhile InFlightMessageGroup.allAcksAreTrue))
  | [], offset, marks => by simp [markOffsetsLoop, lastOffsetOr, manualMarks]
  | g :: rest, offset, marks => by
    by_cases hg : g.allAcksAreTrue = true
    · have hstep : markOffsetsLoop cfg (g :: rest) offset marks =
        markOffsetsLoop cfg rest g.incomingMessage.offset
          (if g.committed && cfg.markOffsetsManually
           then marks ++ [g.incomingMessage.offset + 1] else marks) := by
        simp [markOffsetsLoop, hg]
      rw [hstep, markOffsetsLoop_spec cfg rest _ _]
      have htw : (g :: rest).takeWhile InFlightMessageGroup.allAcksAreTrue =
          g :: rest.takeWhile InFlightMessageGroup.allAcksAreTrue :=
        List.takeWhile_cons_of_pos hg
      have hdw : (g :: rest).dropWhile InFlightMessageGroup.allAcksAreTrue =
          rest.dropWhile InFlightMessageGroup.allAcksAreTrue :=
        List.dropWhile_cons_of_pos hg
      rw [htw, hdw, lastOffsetOr_cons, manualMarks_cons]
      by_cases h1 : g.committed = true <;>
        by_cases h2 : cfg.markOffsetsManually = true <;> simp [h1, h2]
    · have hstep : markOffsetsLoop cfg (g :: rest) offset marks =
          (g :: rest, offset, marks) := by
        simp [markOffsetsLoop, hg]
      have htw : (g :: rest).takeWhile InFlightMessageGroup.allAcksAreTrue = [] :=
        List.takeWhile_cons_of_neg (by simp [hg])
      have hdw : (g :: rest).dropWhile InFlightMessageGroup.allAcksAreTrue = g :: rest :=
        List.dropWhile_cons_of_neg (by simp [hg])
      rw [hstep, htw, hdw, lastOffsetOr_nil]
      simp [manualMarks]

theorem mark_step_inputTopics (cfg : Config) (s : PartitionProcessor) (u : String) :
    (markOffsetsForTopicIfPossible cfg s u).inputTopics = s.inputTopics := rfl

theorem mark_step_commitNext (cfg : Config) (s : PartitionProcessor) (u : String) :
    (markOffsetsForTopicIfPossible cfg s u).commitNextInFlightMessageGroup =
      s.commitNextInFlightMessageGroup := rfl

theorem mark_step_queues_same (cfg : Config) (s : PartitionProcessor) (u : String) :
    (markOffsetsForTopicIfPossible cfg s u).inFlightMessageGroups u =
      (s.inFlightMessageGroups u).dropWhile InFlightMessageGroup.allAcksAreTrue := by
  simp [markOffsetsForTopicIfPossible, markOffsetsLoop_spec, updateMap_same]

theorem mark_step_queues_other (cfg : Config) (s : PartitionProcessor) (u t : String)
    (h : t ≠ u) :
    (markOffsetsForTopicIfPossible cfg s u).inFlightMessageGroups t =
      s.inFlightMessageGroups t := by
  simp [markOffsetsForTopicIfPossible, updateMap_other _ _ _ _ h]

theorem mark_step_managers_same (cfg : Config) (s : PartitionProcessor) (u : String) :
    (markOffsetsForTopicIfPossible cfg s u).offsetManagers u =
      s.offsetManagers u ++ topicMarks cfg (s.inFlightMessageGroups u) := by
  simp only [markOffsetsForTopicIfPossible, markOffsetsLoop_spec, updateMap_same,
    topicMarks]
  by_cases hcond :
      lastOffsetOr ((s.inFlightMessageGroups u).takeWhile
        InFlightMessageGroup.allAcksAreTrue) (-1) ≠ -1 ∧
        cfg.markOffsetsAutomatically = true
  · simp [hcond]
  · simp [hcond]

theorem mark_step_managers_other (cfg : Config) (s : PartitionProcessor) (u t : String)
    (h : t ≠ u) :
    (markOffsetsForTopicIfPossible cfg s u).offsetManagers t = s.offsetManagers t := by
  simp [markOffsetsForTopicIfPossible, updateMap_other _ _ _ _ h]

theorem takeWhile_dropWhile_nil {α : Type} (p : α → Bool) :
    ∀ l : List α, (l.dropWhile p).takeWhile p = []
  | [] => rfl
  | x :: xs => by
    by_cases hx : p x = true
    · rw [List.dropWhile_cons_of_pos hx]
      exact takeWhile_dropWhile_nil p xs
    · rw [List.dropWhile_cons_of_neg (by simp [hx])]
      exact List.takeWhile_cons_of_neg (by simp [hx])

theorem dropWhile_idem {α : Type} (p : α → Bool) :
    ∀ l : List α, (l.dropWhile p).dropWhile p = l.dropWhile p
  | [] => rfl
  | x :: xs => by
    by_cases hx : p x = true
    · rw [List.dropWhile_cons_of_pos hx]
      exact dropWhile_idem p xs
    · rw [List.dropWhile_cons_of_neg (by simp [hx]),
        List.dropWhile_cons_of_neg (by simp [hx])]

theorem dropWhile_head_not {α : Type} (p : α → Bool) :
    ∀ l : List α, l.dropWhile p = [] ∨
      ∃ x xs, l.dropWhile p = x :: xs ∧ p x = false
  | [] => Or.inl rfl
  | x :: xs => by
    by_cases hx : p x = true
    · rw [List.dropWhile_cons_of_pos hx]
      exact dropWhile_head_not p xs
    · rw [List.dropWhile_cons_of_neg (by simp [hx])]
      exact Or.inr ⟨x, xs, rfl, by simpa using hx⟩

theorem topicMarks_dropWhile (cfg : Config) (q : List InFlightMessageGroup) :
    topicMarks cfg
      (q.dropWhile InFlightMessageGroup.allAcksAreTrue) = [] := by
  simp [topicMarks, takeWhile_dropWhile_nil, lastOffsetOr_nil, manualMarks]

theorem foldl_mark_inputTopics (cfg : Config) : ∀ (ts : List String)
    (s : PartitionProcessor),
    (ts.foldl (markOffsetsForTopicIfPossible cfg) s).inputTopics = s.inputTopics
  | [], _ => rfl
  | u :: rest, s => by
    rw [List.foldl_cons, foldl_mark_inputTopics cfg rest, mark_step_inputTopics]

theorem foldl_mark_queues_not_mem (cfg : Config) : ∀ (ts : List String)
    (s : PartitionProcessor) (t : String), t ∉ ts →
    (ts.foldl (markOffsetsForTopicIfPossible cfg) s).inFlightMessageGroups t =
      s.inFlightMessageGroups t
  | [], _, _, _ => rfl
  | u :: rest, s, t, h => by
    have hu : t ≠ u := fun he => h (he ▸ List.mem_cons_self u rest)
    have hr : t ∉ rest := fun he => h (List.mem_cons_of_mem u he)
    rw [List.foldl_cons, foldl_mark_queues_not_mem cfg rest _ t hr,
      mark_step_queues_other cfg s u t hu]

theorem foldl_mark_managers_not_mem (cfg : Config) : ∀ (ts : List String)
    (s : PartitionProcessor) (t : String), t ∉ ts →
    (ts.foldl (markOffsetsForTopicIfPossible cfg) s).offsetManagers t =
      s.offsetManagers t
  | [], _, _, _ => rfl
  | u :: rest, s, t, h => by
    have hu : t ≠ u := fun he => h (he ▸ List.mem_cons_self u rest)
    have hr : t ∉ rest := fun he => h (List.mem_cons_of_mem u he)
    rw [List.foldl_cons, foldl_mark_managers_not_mem cfg rest _ t hr,
      mark_step_managers_other cfg s u t hu]

theorem foldl_mark_queues_mem (cfg : Config) : ∀ (ts : List String)
    (s : PartitionProcessor) (t : String), t ∈ ts →
    (ts.foldl (markOffsetsForTopicIfPossible cfg) s).inFlightMessageGroups t =
      (s.inFlightMessageGroups t).dropWhile InFlightMessageGroup.allAcksAreTrue
  | [], _, _, h => absurd h (List.not_mem_nil _)
  | u :: rest, s, t, h => by
    rw [List.foldl_cons]
    by_cases hu : t = u
    · subst hu
      by_cases hr : t ∈ rest
      · rw [foldl_mark_queues_mem cfg rest _ t hr, mark_step_queues_same,
          dropWhile_idem]
      · rw [foldl_mark_queues_not_mem cfg rest _ t hr, mark_step_queues_same]
    · have hr : t ∈ rest := by
        rcases List.mem_cons.mp h with he | hr
        · exact absurd he hu
        · exact hr
      rw [foldl_mark_queues_mem cfg rest _ t hr, mark_step_queues_other cfg s u t hu]

theorem foldl_mark_managers_mem (cfg : Config) : ∀ (ts : List String)
    (s : PartitionProcessor) (t : String), t ∈ ts →
    (ts.foldl (markOffsetsForTopicIfPossible cfg) s).offsetManagers t =
      s.offsetManagers t ++ topicMarks cfg (s.inFlightMessageGroups t)
  | [], _, _, h => absurd h (List.not_mem_nil _)
  | u :: rest, s, t, h => by
    rw [List.foldl_cons]
    by_cases hu : t = u
    · subst hu
      by_cases hr : t ∈ rest
      · rw [foldl_mark_managers_mem cfg rest _ t hr, mark_step_managers_same,
          mark_step_queues_same, topicMarks_dropWhile, List.append_nil]
      · rw [foldl_mark_managers_not_mem cfg rest _ t hr, mark_step_managers_same]
    · have hr : t ∈ rest := by
        rcases List.mem_cons.mp h with he | hr
        · exact absurd he hu
        · exact hr
      rw [foldl_mark_managers_mem cfg rest _ t hr, mark_step_managers_other cfg s u t hu,
        mark_step_queues_other cfg s u t hu]

theorem manual_flags (cfg : Config) (h : cfg.commitMode = CommitMode.manual) :
    cfg.markOffsetsManually = true ∧ cfg.markOffsetsAutomatically = false := by
  simp [Config.markOffsetsManually, Config.markOffsetsAutomatically, h]

theorem automatic_flags (cfg : Config) (h : cfg.commitMode = CommitMode.automatic) :
    cfg.markOffsetsManually = false ∧ cfg.markOffsetsAutomatically = true := by
  simp [Config.markOffsetsManually, Config.markOffsetsAutomatically, h]

theorem manualMarks_of_manual (cfg : Config) (hm : cfg.markOffsetsManually = true) :
    ∀ p : List InFlightMessageGroup,
    manualMarks cfg p =
      (p.filter (fun g => g.committed)).map (fun g => g.incomingMessage.offset + 1)
  | [] => rfl
  | g :: p => by
    rw [manualMarks_cons, manualMarks_of_manual cfg hm p]
    by_cases h1 : g.committed = true
    · simp [h1, hm, List.filter_cons]
    · simp [h1, hm, List.filter_cons]

theorem manualMarks_of_not_manual (cfg : Config)
    (hm : cfg.markOffsetsManually = false) :
    ∀ p : List InFlightMessageGroup, manualMarks cfg p = []
  | [] => rfl
  | g :: p => by
    rw [manualMarks_cons, manualMarks_of_not_manual cfg hm p]
    simp [hm]

theorem topicMarks_eq_claimedMarks (cfg : Config) (q : List InFlightMessageGroup)
    (hnn : ∀ g ∈ q, 0 ≤ g.incomingMessage.offset) :
    topicMarks cfg q = claimedMarks cfg q := by
  cases hm : cfg.commitMode with
  | manual =>
    obtain ⟨h1, h2⟩ := manual_flags cfg hm
    simp [topicMarks, claimedMarks, hm, h2, manualMarks_of_manual cfg h1]
  | automatic =>
    obtain ⟨h1, h2⟩ := automatic_flags cfg hm
    simp only [topicMarks, claimedMarks, hm, h2, manualMarks_of_not_manual cfg h1,
      List.nil_append]
    rw [lastOffsetOr_eq_getLast]
    rcases hl : (q.takeWhile InFlightMessageGroup.allAcksAreTrue).getLast? with _ | g
    · simp
    · have hg : 0 ≤ g.incomingMessage.offset :=
        hnn g ((List.takeWhile_sublist _).subset (List.mem_of_mem_getLast? hl))
      have hne : g.incomingMessage.offset ≠ -1 := by omega
      simp [hne]

/-- C1: in one run of `markOffsetsIfPossible`, the MarkOffset calls for
an input topic are exactly, in manual mode, one call per complete head
group with `committed = true`, and in automatic mode one call whenever at
least one head group is complete; every call is at one past the offset of
a complete group of the complete head run, so all earlier groups of the
queue were complete at the moment of marking. Stated as: the trace of the
topic's offset manager grows by exactly `claimedMarks`. Offsets of queued
groups are nonnegative, as they are log offsets of consumed records. -/
theorem markOffsetsIfPossible_marks (cfg : Config) (s : PartitionProcessor) (t : String)
    (ht : t ∈ s.inputTopics)
    (hnn : ∀ g ∈ s.inFlightMessageGroups t, 0 ≤ g.incomingMessage.offset) :
    (markOffsetsIfPossible cfg s).offsetManagers t =
      s.offsetManagers t ++ claimedMarks cfg (s.inFlightMessageGroups t) := by
  unfold markOffsetsIfPossible
  rw [foldl_mark_managers_mem cfg _ _ _ ht, topicMarks_eq_claimedMarks cfg _ hnn]

/-- Witness for C1 at a concrete automatic-mode state: head groups at
offsets 10 and 11 are complete, the group at offset 12 is not, and the
one MarkOffset call is at 12. -/
theorem markOffsetsIfPossible_marks_witness :
    ("t" ∈ (wState wQueue1).inputTopics ∧
      ∀ g ∈ (wState wQueue1).inFlightMessageGroups "t", 0 ≤ g.incomingMessage.offset) ∧
    (markOffsetsIfPossible wCfgAuto (wState wQueue1)).offsetManagers "t" = [12] :=
  ⟨⟨by decide, by decide⟩, by
    rw [markOffsetsIfPossible_marks wCfgAuto (wState wQueue1) "t" (by decide) (by decide)]
    decide⟩

/-- C4: after `markOffsetsIfPossible`, the in-flight queue of every input
topic is either empty or headed by an incomplete group. -/
theorem markOffsetsIfPossible_head_incomplete (cfg : Config) (s : PartitionProcessor)
    (t : String) (ht : t ∈ s.inputTopics) :
    (markOffsetsIfPossible cfg s).inFlightMessageGroups t = [] ∨
      ∃ g rest, (markOffsetsIfPossible cfg s).inFlightMessageGroups t = g :: rest ∧
        g.allAcksAreTrue = false := by
  unfold markOffsetsIfPossible
  rw [foldl_mark_queues_mem cfg _ _ _ ht]
  exact dropWhile_head_not _ _

/-- Witness for C4 at a concrete state: after marking, the queue holds
exactly the incomplete group at offset 12. -/
theorem markOffsetsIfPossible_head_incomplete_witness :
    "t" ∈ (wState wQueue1).inputTopics ∧
      ((markOffsetsIfPossible wCfgAuto (wState wQueue1)).inFlightMessageGroups "t" = [] ∨
        ∃ g rest,
          (markOffsetsIfPossible wCfgAuto (wState wQueue1)).inFlightMessageGroups "t" =
            g :: rest ∧ g.allAcksAreTrue = false) :=
  ⟨by decide,
   markOffsetsIfPossible_head_incomplete wCfgAuto (wState wQueue1) "t" (by decide)⟩

/-- C2: at construction, each input topic's partition consumer is opened
at the persisted next offset when it does not exceed the newest log
offset, and at the newest offset (the `sarama.OffsetNewest` sentinel, no
replay) when it does. -/
theorem newPartitionProcessor_starting_offset (persisted newest : String → Int)
    (ts : List String) (t : String) (ht : t ∈ ts) :
    (t, startingOffset (persisted t) (newest t)) ∈
        newPartitionProcessorStartOffsets persisted newest ts ∧
      (persisted t ≤ newest t →
        startingOffset (persisted t) (newest t) = persisted t) ∧
      (newest t < persisted t →
        startingOffset (persisted t) (newest t) = OffsetNewest) := by
  refine ⟨?_, fun h => ?_, fun h => ?_⟩
  · exact List.mem_map.mpr ⟨t, ht, rfl⟩
  · simp only [startingOffset]
    rw [if_neg (by omega)]
  · simp only [startingOffset]
    rw [if_pos (by omega)]

/-- Witness for C2 at the boundary scenario of the spec: persisted next
offset 1000000, newest 42, so the consumer opens at the newest sentinel;
and a second topic with persisted 7 below newest 42 resumes at 7. -/
theorem newPartitionProcessor_starting_offset_witness :
    "t" ∈ ["t"] ∧
      (42 : Int) < 1000000 ∧ startingOffset 1000000 42 = OffsetNewest ∧
      (7 : Int) ≤ 42 ∧ startingOffset 7 42 = 7 :=
  ⟨by decide, by decide,
   (newPartitionProcessor_starting_offset (fun _ => 1000000) (fun _ => 42) ["t"] "t"
      (by decide)).2.2 (by decide),
   by decide,
   (newPartitionProcessor_starting_offset (fun _ => 7) (fun _ => 42) ["t"] "t"
      (by decide)).2.1 (by decide)⟩

/-- C3: `isReadyForMessage` returns true exactly when the length of the
in-flight queue of the topic of the message is at most the configured
bound; readiness still holds at a queue length equal to the bound (so the
queue can grow to bound + 1 before the first false), it fails at
bound + 1, and with a bound of zero readiness holds exactly for an empty
queue. -/
theorem isReadyForMessage_le_bound (cfg : Config) (s : PartitionProcessor)
    (m : ConsumerMessage) :
    (isReadyForMessage cfg s m = true ↔
        ((s.inFlightMessageGroups m.topic).length : Int) ≤
          cfg.maxInFlightMessageGroups) ∧
      (((s.inFlightMessageGroups m.topic).length : Int) =
          cfg.maxInFlightMessageGroups → isReadyForMessage cfg s m = true) ∧
      (((s.inFlightMessageGroups m.topic).length : Int) =
          cfg.maxInFlightMessageGroups + 1 → isReadyForMessage cfg s m = false) ∧
      (cfg.maxInFlightMessageGroups = 0 →
        (isReadyForMessage cfg s m = true ↔ s.inFlightMessageGroups m.topic = [])) := by
  unfold isReadyForMessage
  refine ⟨by simp, fun h => by simp [h], fun h => ?_, fun h0 => ?_⟩
  · simp only [decide_eq_false_iff_not]
    omega
  · rw [h0]
    simp only [decide_eq_true_eq]
    constructor
    · intro hle
      have : (s.inFlightMessageGroups m.topic).length = 0 := by omega
      exact List.length_eq_zero.mp this
    · intro he
      simp [he]

/-- Witness for C3 at a concrete state: three in-flight groups against a
bound of four is ready. -/
theorem isReadyForMessage_le_bound_witness :
    isReadyForMessage wCfgAuto (wState wQueue1) wConsumerMessage = true :=
  (isReadyForMessage_le_bound wCfgAuto (wState wQueue1) wConsumerMessage).1.mpr
    (by decide)

/-- C6: when the topic has a serde, `process` returns the messages the
user submitted through the Sender, in submission order, each stamped
with the originating incoming message; the commit flag is reset before
the user processor runs, so the committed flag of the new group equals
exactly whether the user called commit on this record, independent of the
previous flag value; exactly that one group is appended at the end of the
queue of the message's topic; and nothing else in the state changes. -/
theorem process_appends_single_group (cfg : Config) (mp : MessageProcessorModel)
    (freshId : Nat) (msg : ConsumerMessage) (s : PartitionProcessor)
    (h : cfg.topicSerdes.contains msg.topic = true) :
    ∃ s2 out,
      process cfg mp freshId msg s = some (s2, out) ∧
      out = (mp.staged
          { topic := msg.topic, partition := msg.partition, offset := msg.offset,
            incomingId := freshId }).map
        (fun pm =>
          { topic := pm.topic, producerId := pm.producerId,
            metadata :=
              { topic := msg.topic, partition := msg.partition, offset := msg.offset,
                incomingId := freshId } }) ∧
      s2.commitNextInFlightMessageGroup =
        mp.callsCommit
          { topic := msg.topic, partition := msg.partition, offset := msg.offset,
            incomingId := freshId } ∧
      s2.inFlightMessageGroups msg.topic =
        s.inFlightMessageGroups msg.topic ++
          [{ incomingMessage :=
              { topic := msg.topic, partition := msg.partition, offset := msg.offset,
                incomingId := freshId },
             inFlightMessages := out.map (fun m => { msg := m, ack := false }),
             committed :=
              mp.callsCommit
                { topic := msg.topic, partition := msg.partition, offset := msg.offset,
                  incomingId := freshId } }] ∧
      (∀ u, u ≠ msg.topic → s2.inFlightMessageGroups u = s.inFlightMessageGroups u) ∧
      (∀ u, s2.offsetManagers u = s.offsetManagers u) ∧
      s2.inputTopics = s.inputTopics := by
  unfold process
  rw [if_pos h]
  refine ⟨_, _, rfl, rfl, ?_, ?_, ?_, fun u => rfl, rfl⟩
  · simp
  · simp [updateMap_same]
  · intro u hu
    simp [updateMap_other _ _ _ _ hu]

/-- Witness for C6 at a concrete input: the user submits one message and
requests a commit; the queue gains exactly that group. -/
theorem process_appends_single_group_witness :
    wCfgAuto.topicSerdes.contains wConsumerMessage.topic = true ∧
      ∃ s2 out,
        process wCfgAuto wMP 5 wConsumerMessage (wState []) = some (s2, out) ∧
        out = (wMP.staged
            { topic := wConsumerMessage.topic, partition := wConsumerMessage.partition,
              offset := wConsumerMessage.offset, incomingId := 5 }).map
          (fun pm =>
            { topic := pm.topic, producerId := pm.producerId,
              metadata :=
                { topic := wConsumerMessage.topic,
                  partition := wConsumerMessage.partition,
                  offset := wConsumerMessage.offset, incomingId := 5 } }) ∧
        s2.commitNextInFlightMessageGroup =
          wMP.callsCommit
            { topic := wConsumerMessage.topic, partition := wConsumerMessage.partition,
              offset := wConsumerMessage.offset, incomingId := 5 } ∧
        s2.inFlightMessageGroups wConsumerMessage.topic =
          (wState []).inFlightMessageGroups wConsumerMessage.topic ++
            [{ incomingMessage :=
                { topic := wConsumerMessage.topic,
                  partition := wConsumerMessage.partition,
                  offset := wConsumerMessage.offset, incomingId := 5 },
               inFlightMessages := out.map (fun m => { msg := m, ack := false }),
               committed :=
                wMP.callsCommit
                  { topic := wConsumerMessage.topic,
                    partition := wConsumerMessage.partition,
                    offset := wConsumerMessage.offset, incomingId := 5 } }] ∧
        (∀ u, u ≠ wConsumerMessage.topic →
          s2.inFlightMessageGroups u = (wState []).inFlightMessageGroups u) ∧
        (∀ u, s2.offsetManagers u = (wState []).offsetManagers u) ∧
        s2.inputTopics = (wState []).inputTopics :=
  ⟨by decide, process_appends_single_group wCfgAuto wMP 5 wConsumerMessage (wState [])
    (by decide)⟩

theorem ackInGroup_spec (sent : ProducerMessage) :
    ∀ (ms ms2 : List InFlightMessage), ackInGroup sent ms = some ms2 →
    ∃ j m, ms[j]? = some m ∧ m.msg.producerId = sent.producerId ∧
      ms2 = ms.set j { m with ack := true }
  | [], _, h => by simp [ackInGroup] at h
  | m :: rest, ms2, h => by
    by_cases hm : m.msg.producerId = sent.producerId
    · rw [ackInGroup, if_pos hm] at h
      obtain rfl := (Option.some.inj h).symm
      exact ⟨0, m, by simp, hm, rfl⟩
    · rw [ackInGroup, if_neg hm] at h
      cases hr : ackInGroup sent rest with
      | none => rw [hr] at h; simp at h
      | some rs =>
        rw [hr] at h
        simp only [Option.map_some'] at h
        obtain rfl := (Option.some.inj h).symm
        obtain ⟨j, m2, hj, hpid, hset⟩ := ackInGroup_spec sent rest rs hr
        exact ⟨j + 1, m2, by simpa using hj, hpid, by rw [hset]; rfl⟩

theorem ackInQueue_spec (sent : ProducerMessage) :
    ∀ (q q2 : List InFlightMessageGroup), ackInQueue sent q = some q2 →
    ∃ i g ms2, q[i]? = some g ∧
      g.incomingMessage.incomingId = sent.metadata.incomingId ∧
      ackInGroup sent g.inFlightMessages = some ms2 ∧
      q2 = q.set i { g with inFlightMessages := ms2 }
  | [], _, h => by simp [ackInQueue] at h
  | g :: rest, q2, h => by
    by_cases hg : g.incomingMessage.incomingId = sent.metadata.incomingId
    · rw [ackInQueue, if_pos hg] at h
      cases hr : ackInGroup sent g.inFlightMessages with
      | none => rw [hr] at h; simp at h
      | some ms2 =>
        rw [hr] at h
        simp only [Option.map_some'] at h
        obtain rfl := (Option.some.inj h).symm
        exact ⟨0, g, ms2, by simp, hg, hr, rfl⟩
    · rw [ackInQueue, if_neg hg] at h
      cases hr : ackInQueue sent rest with
      | none => rw [hr] at h; simp at h
      | some rs =>
        rw [hr] at h
        simp only [Option.map_some'] at h
        obtain rfl := (Option.some.inj h).symm
        obtain ⟨i, g2, ms2, hi, hid, hack, hset⟩ := ackInQueue_spec sent rest rs hr
        exact ⟨i + 1, g2, ms2, by simpa using hi, hid, hack, by rw [hset]; rfl⟩

/-- C7: when `onProducerAck` succeeds, there is a group matching the
metadata of the sent message and inside it an in-flight message whose
producer message is the sent message; the new state sets exactly that
message's ack flag to true (a point update of the queue of the metadata
topic), and every other queue element, every other topic's queue, the
MarkOffset traces, the commit flag and the input topics are unchanged. -/
theorem onProducerAck_sets_exactly_target_ack (sent : ProducerMessage)
    (s s2 : PartitionProcessor) (h : onProducerAck sent s = some s2) :
    s2.inputTopics = s.inputTopics ∧
      s2.commitNextInFlightMessageGroup = s.commitNextInFlightMessageGroup ∧
      (∀ u, s2.offsetManagers u = s.offsetManagers u) ∧
      (∀ u, u ≠ sent.metadata.topic →
        s2.inFlightMessageGroups u = s.inFlightMessageGroups u) ∧
      ∃ i j g m,
        (s.inFlightMessageGroups sent.metadata.topic)[i]? = some g ∧
        g.inFlightMessages[j]? = some m ∧
        g.incomingMessage.incomingId = sent.metadata.incomingId ∧
        m.msg.producerId = sent.producerId ∧
        s2.inFlightMessageGroups sent.metadata.topic =
          (s.inFlightMessageGroups sent.metadata.topic).set i
            { g with inFlightMessages :=
                g.inFlightMessages.set j { m with ack := true } } := by
  unfold onProducerAck at h
  cases hq : ackInQueue sent (s.inFlightMessageGroups sent.metadata.topic) with
  | none => rw [hq] at h; simp at h
  | some q2 =>
    rw [hq] at h
    simp only [Option.map_some'] at h
    obtain rfl := (Option.some.inj h).symm
    obtain ⟨i, g, ms2, hi, hid, hack, hset⟩ :=
      ackInQueue_spec sent (s.inFlightMessageGroups sent.metadata.topic) q2 hq
    obtain ⟨j, m, hj, hpid, hmset⟩ :=
      ackInGroup_spec sent g.inFlightMessages ms2 hack
    refine ⟨rfl, rfl, fun u => rfl, fun u hu => updateMap_other _ _ _ _ hu,
      i, j, g, m, hi, hj, hid, hpid, ?_⟩
    show updateMap s.inFlightMessageGroups sent.metadata.topic q2 sent.metadata.topic = _
    rw [updateMap_same, hset, hmset]

/-- Witness for C7 at a concrete state: acking producer id 4 inside the
group at offset 10 flips exactly that ack flag. -/
theorem onProducerAck_sets_exactly_target_ack_witness :
    onProducerAck wAckSent wAckState = some wAckResult ∧
      ∃ i j g m,
        (wAckState.inFlightMessageGroups wAckSent.metadata.topic)[i]? = some g ∧
        g.inFlightMessages[j]? = some m ∧
        g.incomingMessage.incomingId = wAckSent.metadata.incomingId ∧
        m.msg.producerId = wAckSent.producerId ∧
        wAckResult.inFlightMessageGroups wAckSent.metadata.topic =
          (wAckState.inFlightMessageGroups wAckSent.metadata.topic).set i
            { g with inFlightMessages :=
                g.inFlightMessages.set j { m with ack := true } } :=
  ⟨rfl,
   (onProducerAck_sets_exactly_target_ack wAckSent wAckState wAckResult rfl).2.2.2.2⟩

end Kasper

namespace KasperKV

/-- C9: for every key that does not split on the slash into exactly three
parts, `Get`, `Put` and `Delete` return the invalid-key error before
performing any store operation (the call trace is empty) and leave the
store object state unchanged; in particular `Put` changes nothing. -/
theorem invalid_key_rejected_before_store_ops (env : ESEnv) (indexes : Indexes)
    (key : String) (value : StoredValue) (h : (splitKey key).length ≠ 3) :
    esGet env indexes key =
        (ESOutcome.returned (none, some (invalidKeyError key)), indexes, []) ∧
      esPut env indexes key value =
        (ESOutcome.returned (some (invalidKeyError key)), indexes, []) ∧
      esDelete env indexes key =
        (ESOutcome.returned (some (invalidKeyError key)), indexes, []) := by
  rcases hs : splitKey key with _ | ⟨a, _ | ⟨b, _ | ⟨c, _ | ⟨d, tl⟩⟩⟩⟩
  · exact ⟨by simp [esGet, hs], by simp [esPut, hs], by simp [esDelete, hs]⟩
  · exact ⟨by simp [esGet, hs], by simp [esPut, hs], by simp [esDelete, hs]⟩
  · exact ⟨by simp [esGet, hs], by simp [esPut, hs], by simp [esDelete, hs]⟩
  · exact absurd (by simp [hs]) h
  · exact ⟨by simp [esGet, hs], by simp [esPut, hs], by simp [esDelete, hs]⟩

/-- Witness for C9 at a concrete key with one part: all three operations
reject it with the invalid-key error and an empty call trace. -/
theorem invalid_key_rejected_witness :
    (splitKey "badkey").length ≠ 3 ∧
      (esGet wEnv [] "badkey" =
          (ESOutcome.returned (none, some (invalidKeyError "badkey")), [], []) ∧
        esPut wEnv [] "badkey" "v" =
          (ESOutcome.returned (some (invalidKeyError "badkey")), [], []) ∧
        esDelete wEnv [] "badkey" =
          (ESOutcome.returned (some (invalidKeyError "badkey")), [], [])) :=
  ⟨by decide, invalid_key_rejected_before_store_ops wEnv [] "badkey" "v" (by decide)⟩

/-- C10: for a well-formed key whose document is absent, either because
the client reports the 404 error or because the response has
`Found = false`, `Get` returns the witness nil value with a nil error. -/
theorem get_absent_document_returns_nil (env : ESEnv) (indexes : Indexes) (key : String)
    (indexName indexType valueID : String) (idx2 : Indexes) (ops : List ESOp)
    (hk : splitKey key = [indexName, indexType, valueID])
    (hc : checkOrCreateIndex env indexes indexName indexType =
      (ESOutcome.returned idx2, ops))
    (habs : (env.getResp indexName indexType valueID).2 =
        some "elastic: Error 404 (Not Found)" ∨
      ((env.getResp indexName indexType valueID).2 = none ∧
        (env.getResp indexName indexType valueID).1.found = false)) :
    (esGet env indexes key).1 = ESOutcome.returned (none, none) := by
  rcases habs with h4 | ⟨h1, h2⟩
  · simp [esGet, hk, hc, errString, h4]
  · simp [esGet, hk, hc, errString, h1, h2]

/-- Witness for C10 at a concrete key and client: the document is absent
with a found-false response, and `Get` returns nil value and nil
error. -/
theorem get_absent_document_witness :
    splitKey "a/b/c" = ["a", "b", "c"] ∧
      checkOrCreateIndex wEnv [] "a" "b" =
        (ESOutcome.returned [("a", "b")], [ESOp.indexExists "a"]) ∧
      (wEnv.getResp "a" "b" "c").2 = none ∧
      (wEnv.getResp "a" "b" "c").1.found = false ∧
      (esGet wEnv [] "a/b/c").1 = ESOutcome.returned (none, none) :=
  ⟨by decide, by decide, by decide, by decide,
   get_absent_document_returns_nil wEnv [] "a/b/c" "a" "b" "c" [("a", "b")]
     [ESOp.indexExists "a"] (by decide) (by decide)
     (Or.inr ⟨by decide, by decide⟩)⟩

end KasperKV

